import Mathlib

/-!
Verification of the stimulus navigation engine of the VoiceOver annotation
server (`app.py`, `tasks.py`).

The embedding translates the navigation functions of `app.py` into pure Lean
functions over the task's ordered list of stimulus identifiers (`List String`),
the process-wide bad-stimuli set, and the per-request completed set.  File
system contents (the bad-stimuli file, the per-annotator result CSVs) are
modelled at line / record granularity as lists of strings.
-/

set_option maxHeartbeats 1600000

namespace VoiceOver

/-- Whether a stimulus identifier passes the `not in BAD_STIMULI` check of
`get_next_valid_stimulus` / `get_first_valid_stimulus` in `app.py`. -/
def notBad (bad : List String) (x : String) : Bool :=
  !(bad.contains x)

/-- The `while 0 <= idx < len(all_ids)` loop of `get_next_valid_stimulus`
(`app.py`) specialised to `direction = 1`: scan indices `i, i+1, ...` and
return the first identifier not in `bad`; `none` once the index passes the
right end of the list.  The `fuel` argument bounds the number of remaining
iterations (the loop from index `i` runs at most `ids.length - i` times);
it only makes the recursion structural and never cuts the loop short. -/
def scanForwardAux (ids bad : List String) : Nat → Nat → Option String
  | 0, _ => none
  | fuel + 1, i =>
    if h : i < ids.length then
      if notBad bad ids[i] then some ids[i]
      else scanForwardAux ids bad fuel (i + 1)
    else none

/-- The forward scan of `get_next_valid_stimulus` (`app.py`) starting at
index `i`. -/
def scanForward (ids bad : List String) (i : Nat) : Option String :=
  scanForwardAux ids bad (ids.length - i) i

/-- The `while 0 <= idx < len(all_ids)` loop of `get_next_valid_stimulus`
(`app.py`) specialised to `direction = -1`.  The argument `j` is the current
index plus one, so `scanBackward ids bad j` scans indices
`j-1, j-2, ..., 0` and returns the first identifier not in `bad`; `none`
once the index passes the left end (argument `0`), and also `none` when the
starting index is already at or beyond the right end (the loop guard fails
immediately). -/
def scanBackward (ids bad : List String) : Nat → Option String
  | 0 => none
  | j + 1 =>
    if h : j < ids.length then
      if notBad bad ids[j] then some ids[j]
      else scanBackward ids bad j
    else none

/-- The `direction` argument of `get_next_valid_stimulus`: `1` (forward) or
`-1` (backward) in `app.py`. -/
inductive Direction where
  | forward
  | backward
deriving DecidableEq

/-- `get_next_valid_stimulus(task, current_id, direction)` from `app.py`,
with the task's identifier list passed directly.  `current_idx` is the index
of `current_id` in the list, or `-1` (forward) / `len` (backward) when
`list.index` raises `ValueError`; the scan starts at `current_idx + direction`. -/
def get_next_valid_stimulus (ids bad : List String) (current_id : String)
    (direction : Direction) : Option String :=
  match direction with
  | .forward =>
    if ids.contains current_id then
      scanForward ids bad (ids.indexOf current_id + 1)
    else
      scanForward ids bad 0
  | .backward =>
    if ids.contains current_id then
      scanBackward ids bad (ids.indexOf current_id)
    else
      scanBackward ids bad ids.length

/-- `get_first_valid_stimulus(task)` from `app.py`: the first identifier of
the task's sequence that is not in `BAD_STIMULI`. -/
def get_first_valid_stimulus (ids bad : List String) : Option String :=
  ids.find? (fun stim_id => !(bad.contains stim_id))

/-! ### Characterisations of the scan loops -/

theorem scanForwardAux_eq_find? (ids bad : List String) (fuel i : Nat)
    (hf : ids.length ≤ fuel + i) :
    scanForwardAux ids bad fuel i = (ids.drop i).find? (notBad bad) := by
  induction fuel generalizing i with
  | zero =>
    rw [scanForwardAux, List.drop_eq_nil_of_le (by omega), List.find?_nil]
  | succ fuel ih =>
    rw [scanForwardAux]
    by_cases h : i < ids.length
    · rw [dif_pos h, List.drop_eq_getElem_cons h]
      cases hb : notBad bad ids[i] with
      | true => rw [if_pos rfl, List.find?_cons_of_pos _ hb]
      | false =>
        rw [if_neg (by simp), List.find?_cons_of_neg _ (by simp [hb])]
        exact ih (i + 1) (by omega)
    · rw [dif_neg h, List.drop_eq_nil_of_le (by omega), List.find?_nil]

theorem scanForward_eq_find? (ids bad : List String) (i : Nat) :
    scanForward ids bad i = (ids.drop i).find? (notBad bad) :=
  scanForwardAux_eq_find? ids bad (ids.length - i) i (by omega)

theorem scanBackward_eq_find? (ids bad : List String) (j : Nat)
    (hj : j ≤ ids.length) :
    scanBackward ids bad j = ((ids.take j).reverse).find? (notBad bad) := by
  induction j with
  | zero => simp [scanBackward]
  | succ j ih =>
    have hlt : j < ids.length := by omega
    rw [scanBackward, dif_pos hlt, List.take_succ]
    have hget : ids[j]? = some ids[j] := List.getElem?_eq_getElem hlt
    rw [hget]
    simp only [Option.toList_some, List.reverse_append, List.reverse_singleton,
      List.singleton_append]
    cases hb : notBad bad ids[j] with
    | true => rw [if_pos rfl, List.find?_cons_of_pos _ hb]
    | false =>
      rw [if_neg (by simp), List.find?_cons_of_neg _ (by simp [hb])]
      exact ih (by omega)

/-- Whether a stimulus identifier passes the
`not in filled_ids and ... not in BAD_STIMULI` check of the `next_unfilled`
route in `app.py`. -/
def unfilledOk (filled bad : List String) (x : String) : Bool :=
  !(filled.contains x) && !(bad.contains x)

/-- One `for i in range(lo, hi)` loop of the `next_unfilled` route in
`app.py`: return the first identifier with index in `[lo, hi)` that is
neither filled nor bad.  (For the calls made by the route, `hi ≤ len` and
every visited index is in range; the out-of-range branch mirrors the loop
simply producing no result.) -/
def findInRangeAux (ids filled bad : List String) :
    Nat → Nat → Nat → Option String
  | 0, _, _ => none
  | fuel + 1, lo, hi =>
    if lo < hi then
      if h : lo < ids.length then
        if unfilledOk filled bad ids[lo] then some ids[lo]
        else findInRangeAux ids filled bad fuel (lo + 1) hi
      else none
    else none

/-- The range loop starting at `lo` with exclusive bound `hi`; the `fuel`
argument of `findInRangeAux` bounds the number of remaining iterations and
never cuts the loop short. -/
def findInRange (ids filled bad : List String) (lo hi : Nat) : Option String :=
  findInRangeAux ids filled bad (hi - lo) lo hi

/-- The scanning part of the `next_unfilled` route in `app.py` (after
`filled_ids` has been collected and `start_id` normalised): find
`start_idx` via `all_ids.index` (`0` when `ValueError` is raised), scan
`range(start_idx, len(all_ids))`, then wrap around to
`range(0, start_idx)`. -/
def next_unfilled_scan (ids filled bad : List String) (start_id : String) :
    Option String :=
  let start_idx := if ids.contains start_id then ids.indexOf start_id else 0
  match findInRange ids filled bad start_idx ids.length with
  | some x => some x
  | none => findInRange ids filled bad 0 start_idx

theorem findInRangeAux_eq_find? (ids filled bad : List String)
    (fuel lo hi : Nat) (hf : hi ≤ fuel + lo) (hhi : hi ≤ ids.length) :
    findInRangeAux ids filled bad fuel lo hi
      = ((ids.drop lo).take (hi - lo)).find? (unfilledOk filled bad) := by
  induction fuel generalizing lo with
  | zero =>
    have hz : hi - lo = 0 := by omega
    rw [findInRangeAux, hz, List.take_zero, List.find?_nil]
  | succ fuel ih =>
    rw [findInRangeAux]
    by_cases hl : lo < hi
    · have h : lo < ids.length := by omega
      rw [if_pos hl, dif_pos h, List.drop_eq_getElem_cons h]
      have htk : hi - lo = (hi - (lo + 1)) + 1 := by omega
      rw [htk, List.take_succ_cons]
      cases hb : unfilledOk filled bad ids[lo] with
      | true => rw [if_pos rfl, List.find?_cons_of_pos _ hb]
      | false =>
        rw [if_neg (by simp), List.find?_cons_of_neg _ (by simp [hb])]
        exact ih (lo + 1) (by omega)
    · rw [if_neg hl]
      have hz : hi - lo = 0 := by omega
      rw [hz, List.take_zero, List.find?_nil]

theorem findInRange_eq_find? (ids filled bad : List String) (lo hi : Nat)
    (hhi : hi ≤ ids.length) :
    findInRange ids filled bad lo hi
      = ((ids.drop lo).take (hi - lo)).find? (unfilledOk filled bad) :=
  findInRangeAux_eq_find? ids filled bad (hi - lo) lo hi (by omega) hhi

theorem next_unfilled_scan_eq_find? (ids filled bad : List String)
    (start_id : String) :
    next_unfilled_scan ids filled bad start_id
      = (ids.drop (if ids.contains start_id then ids.indexOf start_id else 0)
          ++ ids.take (if ids.contains start_id then ids.indexOf start_id else 0)
          ).find? (unfilledOk filled bad) := by
  unfold next_unfilled_scan
  set s := if ids.contains start_id then ids.indexOf start_id else 0 with hs
  have hsle : s ≤ ids.length := by
    rw [hs]
    split
    · exact List.indexOf_le_length
    · exact Nat.zero_le _
  have h₁ : findInRange ids filled bad s ids.length
      = (ids.drop s).find? (unfilledOk filled bad) := by
    rw [findInRange_eq_find? ids filled bad s ids.length (Nat.le_refl _)]
    have : (ids.drop s).length = ids.length - s := List.length_drop s ids
    rw [List.take_of_length_le (by omega)]
  have h₂ : findInRange ids filled bad 0 s
      = (ids.take s).find? (unfilledOk filled bad) := by
    rw [findInRange_eq_find? ids filled bad 0 s hsle]
    simp
  simp only [h₁, h₂, List.find?_append]
  cases hfd : (ids.drop s).find? (unfilledOk filled bad) <;> simp [hfd]

theorem mem_rotation_iff (ids : List String) (s : Nat) (x : String) :
    x ∈ ids.drop s ++ ids.take s ↔ x ∈ ids := by
  constructor
  · intro h
    rcases List.mem_append.mp h with h | h
    · exact List.mem_of_mem_drop h
    · exact List.mem_of_mem_take h
  · intro h
    rw [← List.take_append_drop s ids] at h
    rcases List.mem_append.mp h with h | h
    · exact List.mem_append.mpr (Or.inr h)
    · exact List.mem_append.mpr (Or.inl h)

theorem not_unfilledOk_iff (filled bad : List String) (x : String) :
    (¬ unfilledOk filled bad x = true) ↔ (x ∈ bad ∨ x ∈ filled) := by
  simp [unfilledOk]
  tauto

/-- C1: `next_unfilled` starts at the index of `fromId` (index `0` when
`fromId` is not in the sequence), scans forward to the end for the first
identifier that is neither excluded nor completed, wraps around to scan
from index `0` up to (not including) the starting index when the forward
scan fails, and returns `none` exactly when every identifier of the
sequence is excluded-or-completed. -/
theorem claim1_next_unfilled_scan (ids filled bad : List String)
    (start_id : String) :
    next_unfilled_scan ids filled bad start_id
      = (ids.drop (if ids.contains start_id then ids.indexOf start_id else 0)
          ++ ids.take (if ids.contains start_id then ids.indexOf start_id else 0)
          ).find? (unfilledOk filled bad)
    ∧ (next_unfilled_scan ids filled bad start_id = none
        ↔ ∀ x ∈ ids, x ∈ bad ∨ x ∈ filled) := by
  refine ⟨next_unfilled_scan_eq_find? ids filled bad start_id, ?_⟩
  rw [next_unfilled_scan_eq_find? ids filled bad start_id, List.find?_eq_none]
  constructor
  · intro h x hx
    exact (not_unfilledOk_iff filled bad x).mp
      (h x ((mem_rotation_iff ids _ x).mpr hx))
  · intro h x hx
    exact (not_unfilledOk_iff filled bad x).mpr
      (h x ((mem_rotation_iff ids _ x).mp hx))

/-- Witness for C1: the spec's wraparound example, sequence
`["00000".."00004"]` with `{"00000","00001","00003","00004"}` completed and
nothing excluded: starting from `"00003"` the scan wraps and lands on
`"00002"`. -/
theorem claim1_witness :
    next_unfilled_scan ["00000", "00001", "00002", "00003", "00004"]
      ["00000", "00001", "00003", "00004"] [] "00003" = some "00002" := by
  have h := (claim1_next_unfilled_scan
    ["00000", "00001", "00002", "00003", "00004"]
    ["00000", "00001", "00003", "00004"] [] "00003").1
  rw [h]
  rfl

/-- C3: `get_first_valid_stimulus` returns the minimum-index element of the
sequence not in the exclusion set, and returns `none` exactly when every
element of the sequence is excluded. -/
theorem claim3_first_valid (ids bad : List String) :
    (get_first_valid_stimulus ids bad = none ↔ ∀ x ∈ ids, x ∈ bad)
    ∧ ∀ y, get_first_valid_stimulus ids bad = some y →
        y ∉ bad ∧ ∃ (i : Nat) (h : i < ids.length), ids.get ⟨i, h⟩ = y ∧
          ∀ (j : Nat) (hj : j < ids.length), j < i → ids.get ⟨j, hj⟩ ∈ bad := by
  constructor
  · rw [get_first_valid_stimulus, List.find?_eq_none]
    constructor
    · intro h x hx
      have := h x hx
      simpa using this
    · intro h x hx
      simpa using h x hx
  · intro y hy
    rw [get_first_valid_stimulus, List.find?_eq_some_iff_getElem] at hy
    obtain ⟨hpy, i, hi, hgy, hmin⟩ := hy
    refine ⟨by simpa using hpy, i, hi, by simpa using hgy, ?_⟩
    intro j hj hji
    have := hmin j hji
    simpa using this

/-- Witness for C3: on `["00000", "00001"]` with `"00000"` excluded, the
first valid stimulus is not `none`. -/
theorem claim3_witness :
    get_first_valid_stimulus ["00000", "00001"] ["00000"] ≠ none := by
  intro hnone
  have h := ((claim3_first_valid ["00000", "00001"] ["00000"]).1).mp hnone
  have := h "00001" (by simp)
  simp at this

theorem contains_iff (l : List String) (a : String) :
    l.contains a = true ↔ a ∈ l := by
  simp [List.contains]

theorem nodup_indexOf_get (ids : List String) (hnd : ids.Nodup) (i : Nat)
    (h : i < ids.length) : ids.indexOf (ids.get ⟨i, h⟩) = i := by
  have hmem : ids.get ⟨i, h⟩ ∈ ids := ids.get_mem i h
  have hlt : ids.indexOf (ids.get ⟨i, h⟩) < ids.length :=
    List.indexOf_lt_length.mpr hmem
  have hget : ids.get ⟨ids.indexOf (ids.get ⟨i, h⟩), hlt⟩ = ids.get ⟨i, h⟩ :=
    List.indexOf_get hlt
  exact congrArg Fin.val ((hnd.get_inj_iff).mp hget)

theorem step_forward_mem (ids bad : List String) (hnd : ids.Nodup) (i : Nat)
    (h : i < ids.length) :
    get_next_valid_stimulus ids bad (ids.get ⟨i, h⟩) .forward
      = (ids.drop (i + 1)).find? (notBad bad) := by
  simp only [get_next_valid_stimulus]
  rw [if_pos ((contains_iff ids _).mpr (ids.get_mem i h)),
    nodup_indexOf_get ids hnd i h, scanForward_eq_find?]

theorem step_backward_mem (ids bad : List String) (hnd : ids.Nodup) (i : Nat)
    (h : i < ids.length) :
    get_next_valid_stimulus ids bad (ids.get ⟨i, h⟩) .backward
      = ((ids.take i).reverse).find? (notBad bad) := by
  simp only [get_next_valid_stimulus]
  rw [if_pos ((contains_iff ids _).mpr (ids.get_mem i h)),
    nodup_indexOf_get ids hnd i h,
    scanBackward_eq_find? ids bad i (Nat.le_of_lt h)]

theorem step_forward_not_mem (ids bad : List String) (x : String)
    (hx : x ∉ ids) :
    get_next_valid_stimulus ids bad x .forward = ids.find? (notBad bad) := by
  simp only [get_next_valid_stimulus]
  rw [if_neg (fun hc => hx ((contains_iff ids x).mp hc)), scanForward_eq_find?]
  simp

theorem step_backward_not_mem (ids bad : List String) (x : String)
    (hx : x ∉ ids) :
    get_next_valid_stimulus ids bad x .backward
      = ids.reverse.find? (notBad bad) := by
  simp only [get_next_valid_stimulus]
  rw [if_neg (fun hc => hx ((contains_iff ids x).mp hc)),
    scanBackward_eq_find? ids bad ids.length (Nat.le_refl _), List.take_length]

/-- C2: `step` starts at the index of `fromId` (or just outside the
sequence — before the start for forward, past the end for backward — when
`fromId` is absent), advances one position at a time in the given
direction skipping every excluded identifier, returns the first
non-excluded identifier, does not wrap around, and returns `none` once the
boundary is passed; on a deduplicated sequence, stepping forward from the
element at index `i` never returns an excluded element nor an element
whose index is at most `i`. -/
theorem claim2_step (ids bad : List String) (fromId : String) :
    (fromId ∉ ids →
      get_next_valid_stimulus ids bad fromId .forward
          = ids.find? (notBad bad)
      ∧ get_next_valid_stimulus ids bad fromId .backward
          = ids.reverse.find? (notBad bad))
    ∧ (ids.Nodup → ∀ (i : Nat) (h : i < ids.length),
        fromId = ids.get ⟨i, h⟩ →
        get_next_valid_stimulus ids bad fromId .forward
            = (ids.drop (i + 1)).find? (notBad bad)
        ∧ get_next_valid_stimulus ids bad fromId .backward
            = ((ids.take i).reverse).find? (notBad bad)
        ∧ ∀ y, get_next_valid_stimulus ids bad fromId .forward = some y →
            y ∉ bad ∧ ∀ (j : Nat) (hj : j < ids.length),
              ids.get ⟨j, hj⟩ = y → i < j) := by
  constructor
  · intro hx
    exact ⟨step_forward_not_mem ids bad fromId hx,
      step_backward_not_mem ids bad fromId hx⟩
  · intro hnd i h hfrom
    subst hfrom
    refine ⟨step_forward_mem ids bad hnd i h,
      step_backward_mem ids bad hnd i h, ?_⟩
    intro y hy
    rw [step_forward_mem ids bad hnd i h,
      List.find?_eq_some_iff_getElem] at hy
    obtain ⟨hpy, k, hk, hky, -⟩ := hy
    rw [List.getElem_drop] at hky
    have hk' : i + 1 + k < ids.length := by
      have := List.length_drop (i + 1) ids
      omega
    refine ⟨by simpa [notBad] using hpy, ?_⟩
    intro j hj hjy
    have hget : ids.get ⟨j, hj⟩ = ids.get ⟨i + 1 + k, hk'⟩ := by
      rw [hjy]
      simp only [List.get_eq_getElem]
      exact hky.symm
    have := congrArg Fin.val ((hnd.get_inj_iff).mp hget)
    simp only at this
    omega

/-- Witness for C2: on the spec's end-to-end example
`["00000".."00004"]` with `"00002"` excluded, stepping forward from
`"00001"` (index 1) yields `"00003"`, skipping the excluded `"00002"`. -/
theorem claim2_witness :
    get_next_valid_stimulus ["00000", "00001", "00002", "00003", "00004"]
      ["00002"] "00001" .forward = some "00003" := by
  have h := ((claim2_step ["00000", "00001", "00002", "00003", "00004"]
    ["00002"] "00001").2 (by decide) 1 (by decide) rfl).1
  rw [h]
  rfl

/-- C4: on a deduplicated sequence, stepping forward from a non-excluded
identifier `x` that is present in the sequence and landing on `y`, then
stepping backward from `y`, returns `x`. -/
theorem claim4_step_roundtrip (ids bad : List String) (x y : String)
    (hnd : ids.Nodup) (hx : x ∈ ids) (hxbad : x ∉ bad)
    (hstep : get_next_valid_stimulus ids bad x .forward = some y) :
    get_next_valid_stimulus ids bad y .backward = some x := by
  have hi : ids.indexOf x < ids.length := List.indexOf_lt_length.mpr hx
  set i := ids.indexOf x with hidef
  have hxg : ids.get ⟨i, hi⟩ = x := List.indexOf_get hi
  have hfwd : get_next_valid_stimulus ids bad x .forward
      = (ids.drop (i + 1)).find? (notBad bad) := by
    conv_lhs => rw [← hxg]
    exact step_forward_mem ids bad hnd i hi
  rw [hfwd, List.find?_eq_some_iff_getElem] at hstep
  obtain ⟨hpy, k, hk, hky, hmin⟩ := hstep
  rw [List.getElem_drop] at hky
  have hK : i + 1 + k < ids.length := by
    have := List.length_drop (i + 1) ids
    omega
  have hyg : ids.get ⟨i + 1 + k, hK⟩ = y := by
    simpa [List.get_eq_getElem] using hky
  have hbwd : get_next_valid_stimulus ids bad y .backward
      = ((ids.take (i + 1 + k)).reverse).find? (notBad bad) := by
    conv_lhs => rw [← hyg]
    exact step_backward_mem ids bad hnd (i + 1 + k) hK
  rw [hbwd, List.take_add, List.reverse_append, List.find?_append]
  have hnone : (((ids.drop (i + 1)).take k).reverse).find? (notBad bad)
      = none := by
    rw [List.find?_eq_none]
    intro z hz
    rw [List.mem_reverse, List.mem_iff_getElem] at hz
    obtain ⟨m, hm, hmz⟩ := hz
    have hmk : m < k := by
      have h2 : ((ids.drop (i + 1)).take k).length ≤ k := by
        simp [List.length_take]
      omega
    have hbadm := hmin m hmk
    rw [List.getElem_take] at hmz
    rw [← hmz]
    simpa using hbadm
  rw [hnone, Option.none_or]
  have htk : ids.take (i + 1) = ids.take i ++ [ids.get ⟨i, hi⟩] := by
    rw [List.take_succ, List.getElem?_eq_getElem hi]
    simp [List.get_eq_getElem]
  rw [htk, hxg, List.reverse_append]
  simp only [List.reverse_singleton, List.singleton_append]
  rw [List.find?_cons_of_pos _ (by simpa [notBad] using hxbad)]

/-- Witness for C4: on `["00000".."00004"]` with `"00002"` excluded,
stepping forward from `"00001"` gives `"00003"`, and stepping backward
from `"00003"` returns to `"00001"`. -/
theorem claim4_witness :
    get_next_valid_stimulus ["00000", "00001", "00002", "00003", "00004"]
      ["00002"] "00003" .backward = some "00001" :=
  claim4_step_roundtrip ["00000", "00001", "00002", "00003", "00004"]
    ["00002"] "00001" "00003" (by decide) (by decide) (by decide) (by rfl)

/-- Outcome of the `annotate` route (`app.py`, `/<task>/<stim_id>`):
an HTTP redirect to another stimulus, the "No more valid stimuli found"
page, a 404 for an unknown stimulus, or rendering the annotation page for
the requested stimulus. -/
inductive AnnotateResult where
  | redirect (target : String)
  | noMoreValid
  | pageNotFound
  | render (stim_id : String)
deriving DecidableEq

/-- The `annotate` route of `app.py` (stimulus lookup and rendering
reduced to which stimulus, if any, is presented): a bad stimulus is
redirected to `get_next_valid_stimulus(task, stim_id, direction=1)` (404
when there is none); otherwise the page for `stim_id` is rendered when it
belongs to the task's sequence, and 404 when it does not. -/
def annotate (ids bad : List String) (stim_id : String) : AnnotateResult :=
  if bad.contains stim_id then
    match get_next_valid_stimulus ids bad stim_id .forward with
    | some next_valid => .redirect next_valid
    | none => .noMoreValid
  else if ids.contains stim_id then .render stim_id
  else .pageNotFound

/-- The navigation decision at the end of the `submit` route of `app.py`
(after the result row has been appended): with `prev` in the form, go to
the previous valid stimulus, staying on the current one when there is
none; otherwise go to the next valid stimulus, or to the thanks page when
there is none. -/
inductive SubmitNav where
  | goto (stim_id : String)
  | thanksPage
deriving DecidableEq

def submit_nav (ids bad : List String) (stim_id : String) (prev : Bool) :
    SubmitNav :=
  if prev then
    match get_next_valid_stimulus ids bad stim_id .backward with
    | some next_valid => .goto next_valid
    | none => .goto stim_id
  else
    match get_next_valid_stimulus ids bad stim_id .forward with
    | some next_valid => .goto next_valid
    | none => .thanksPage

theorem step_result_not_bad (ids bad : List String) (x y : String)
    (d : Direction) (h : get_next_valid_stimulus ids bad x d = some y) :
    bad.contains y = false := by
  cases d with
  | forward =>
    rw [show get_next_valid_stimulus ids bad x .forward
        = scanForward ids bad (if ids.contains x then ids.indexOf x + 1 else 0)
        from by simp only [get_next_valid_stimulus]; split <;> rfl,
      scanForward_eq_find?] at h
    have := List.find?_some h
    simpa [notBad] using this
  | backward =>
    rw [show get_next_valid_stimulus ids bad x .backward
        = scanBackward ids bad (if ids.contains x then ids.indexOf x
            else ids.length)
        from by simp only [get_next_valid_stimulus]; split <;> rfl] at h
    have hle : (if ids.contains x then ids.indexOf x else ids.length)
        ≤ ids.length := by
      split
      · exact List.indexOf_le_length
      · exact Nat.le_refl _
    rw [scanBackward_eq_find? ids bad _ hle] at h
    have := List.find?_some h
    simpa [notBad] using this

/-- C5: a direct lookup of an excluded identifier is redirected forward to
the next valid identifier before anything is rendered — the `annotate`
route never renders a page for an excluded identifier, and what it renders
instead is a redirect to the forward step (or the "no more valid stimuli"
page when no valid identifier remains). -/
theorem claim5_annotate_excluded (ids bad : List String) (stim_id : String)
    (h : bad.contains stim_id = true) :
    (∀ x, annotate ids bad stim_id ≠ .render x)
    ∧ (∀ nxt, get_next_valid_stimulus ids bad stim_id .forward = some nxt →
        annotate ids bad stim_id = .redirect nxt ∧ bad.contains nxt = false)
    ∧ (get_next_valid_stimulus ids bad stim_id .forward = none →
        annotate ids bad stim_id = .noMoreValid) := by
  refine ⟨?_, ?_, ?_⟩
  · intro x hx
    rw [annotate, if_pos h] at hx
    cases hs : get_next_valid_stimulus ids bad stim_id .forward with
    | none => rw [hs] at hx; exact AnnotateResult.noConfusion hx
    | some nxt => rw [hs] at hx; exact AnnotateResult.noConfusion hx
  · intro nxt hnxt
    refine ⟨?_, step_result_not_bad ids bad stim_id nxt .forward hnxt⟩
    rw [annotate, if_pos h, hnxt]
  · intro hnone
    rw [annotate, if_pos h, hnone]

/-- Witness for C5: requesting the excluded `"00002"` on
`["00000".."00004"]` redirects to `"00003"`. -/
theorem claim5_witness :
    annotate ["00000", "00001", "00002", "00003", "00004"] ["00002"]
      "00002" = .redirect "00003" :=
  ((claim5_annotate_excluded ["00000", "00001", "00002", "00003", "00004"]
    ["00002"] "00002" (by decide)).2.1 "00003" (by decide)).1

/-- C6: when a backward step finds no valid previous identifier, the
`submit` route stays on the current identifier instead of erroring, and
when that identifier is itself valid and part of the sequence it is then
actually presented by the `annotate` route; e.g. on `["00000".."00004"]`
with `"00002"` excluded, stepping backward from `"00000"` stays on
`"00000"`. -/
theorem claim6_backward_stays (ids bad : List String) (stim_id : String)
    (hnone : get_next_valid_stimulus ids bad stim_id .backward = none) :
    submit_nav ids bad stim_id true = .goto stim_id
    ∧ (bad.contains stim_id = false → ids.contains stim_id = true →
        annotate ids bad stim_id = .render stim_id) := by
  constructor
  · rw [submit_nav, if_pos rfl, hnone]
  · intro hgood hmem
    rw [annotate,
      if_neg (fun hc => by rw [hc] at hgood; exact Bool.noConfusion hgood),
      if_pos hmem]

/-- Witness for C6: on `["00000".."00004"]` with `"00002"` excluded, there
is no valid stimulus before `"00000"`; submitting with `prev` stays on
`"00000"`, which is then rendered. -/
theorem claim6_witness :
    submit_nav ["00000", "00001", "00002", "00003", "00004"] ["00002"]
      "00000" true = .goto "00000"
    ∧ annotate ["00000", "00001", "00002", "00003", "00004"] ["00002"]
      "00000" = .render "00000" := by
  have h := claim6_backward_stays
    ["00000", "00001", "00002", "00003", "00004"] ["00002"] "00000"
    (by decide)
  exact ⟨h.1, h.2 (by decide) (by decide)⟩

/-- `save_bad_stimuli` from `app.py`: write `sorted(BAD_STIMULI)`, one
identifier per line.  The file is modelled as its list of lines (the
trailing newline of `f"{stim_id}\n"` is the line terminator); the Python
`set` is modelled as a `Finset`. -/
def save_bad_stimuli (bad : Finset String) : List String :=
  bad.sort (· ≤ ·)

/-- Python's `str.strip()`: remove leading and trailing whitespace. -/
def strip (s : String) : String :=
  ⟨((s.data.dropWhile Char.isWhitespace).reverse.dropWhile
      Char.isWhitespace).reverse⟩

/-- `load_bad_stimuli` from `app.py`:
`set(line.strip() for line in f if line.strip())` over the lines of the
file. -/
def load_bad_stimuli (lines : List String) : Finset String :=
  ((lines.map strip).filter (fun line => line != "")).toFinset

/-- C7: for an exclusion set of canonical identifiers (no surrounding
whitespace, nonempty), `save` followed by `load` reproduces an equal set;
the saved list does not depend on the order in which identifiers were
inserted (any permutation of the insertions saves identically), and it is
one identifier per line, sorted ascending. -/
theorem claim7_save_load_roundtrip (l₁ l₂ : List String)
    (hcanon : ∀ s ∈ l₁, strip s = s ∧ s ≠ "") (hperm : l₁.Perm l₂) :
    load_bad_stimuli (save_bad_stimuli l₁.toFinset) = l₁.toFinset
    ∧ save_bad_stimuli l₂.toFinset = save_bad_stimuli l₁.toFinset
    ∧ List.Sorted (· ≤ ·) (save_bad_stimuli l₁.toFinset) := by
  refine ⟨?_, by rw [List.toFinset_eq_of_perm l₂ l₁ hperm.symm],
    Finset.sort_sorted _ _⟩
  unfold load_bad_stimuli save_bad_stimuli
  have hmem : ∀ s ∈ l₁.toFinset.sort (· ≤ ·), strip s = s ∧ s ≠ "" :=
    fun s hs => hcanon s (List.mem_toFinset.mp ((Finset.mem_sort _).mp hs))
  have h1 : (l₁.toFinset.sort (· ≤ ·)).map strip
      = l₁.toFinset.sort (· ≤ ·) := by
    rw [List.map_congr_left (fun s hs => (hmem s hs).1), List.map_id']
  rw [h1, List.filter_eq_self.mpr
    (fun s hs => by simpa using (hmem s hs).2), Finset.sort_toFinset]

/-- Witness for C7: saving the set built from insertions
`["00002", "00000"]` and from the reordered insertions
`["00000", "00002"]` agrees, round-trips, and is sorted. -/
theorem claim7_witness :
    load_bad_stimuli (save_bad_stimuli (["00002", "00000"] :
        List String).toFinset) = (["00002", "00000"] : List String).toFinset
    ∧ save_bad_stimuli (["00000", "00002"] : List String).toFinset
      = save_bad_stimuli (["00002", "00000"] : List String).toFinset
    ∧ List.Sorted (· ≤ ·)
        (save_bad_stimuli (["00002", "00000"] : List String).toFinset) :=
  claim7_save_load_roundtrip ["00002", "00000"] ["00000", "00002"]
    (by decide) (by decide)

/-! ### Decimal rendering: Python `f"{n:05d}"` -/

/-- Value of a most-significant-first list of decimal digit values. -/
def digitsVal (ds : List Nat) : Nat :=
  ds.foldl (fun acc d => 10 * acc + d) 0

/-- Decimal digit values of `n`, most significant first.  The `fuel`
argument (`n` itself at top level) bounds the recursion depth and never
affects the result. -/
def natDigitsAux : Nat → Nat → List Nat
  | 0, n => [n]
  | fuel + 1, n =>
    if n < 10 then [n] else natDigitsAux fuel (n / 10) ++ [n % 10]

def natDigits (n : Nat) : List Nat := natDigitsAux n n

/-- The character of a decimal digit value (`'0'` has code 48). -/
def digitChar (d : Nat) : Char := Char.ofNat (48 + d)

/-- Python's `f"{n:05d}"` for a natural number: the decimal rendering of
`n`, left-padded with `'0'` to at least five characters.  This is how
`tasks.py` generates `stimulus_id` and how the `next_unfilled` route of
`app.py` normalises identifiers read from result files. -/
def padZeros5 (n : Nat) : String :=
  ⟨List.replicate (5 - (natDigits n).length) (digitChar 0)
    ++ (natDigits n).map digitChar⟩

def charDigit (c : Char) : Nat := c.toNat - 48

/-- Left inverse of `padZeros5`: strip leading zero characters and read
the remaining digits. -/
def unpad5 (s : String) : Nat :=
  digitsVal ((s.data.dropWhile (fun c => c == digitChar 0)).map charDigit)

theorem digitsVal_append (ds : List Nat) (d : Nat) :
    digitsVal (ds ++ [d]) = 10 * digitsVal ds + d := by
  unfold digitsVal
  rw [List.foldl_append]
  rfl

theorem digitsVal_natDigitsAux (fuel n : Nat) (h : n ≤ fuel) :
    digitsVal (natDigitsAux fuel n) = n := by
  induction fuel generalizing n with
  | zero =>
    have hz : n = 0 := by omega
    subst hz
    rfl
  | succ fuel ih =>
    rw [natDigitsAux]
    by_cases h10 : n < 10
    · rw [if_pos h10]
      simp [digitsVal]
    · rw [if_neg h10, digitsVal_append, ih (n / 10) (by omega)]
      omega

theorem natDigitsAux_head_pos (fuel n : Nat) (hle : n ≤ fuel) (hn : 0 < n) :
    ∃ d ds, natDigitsAux fuel n = d :: ds ∧ 0 < d := by
  induction fuel generalizing n with
  | zero => omega
  | succ fuel ih =>
    rw [natDigitsAux]
    by_cases h10 : n < 10
    · rw [if_pos h10]
      exact ⟨n, [], rfl, hn⟩
    · rw [if_neg h10]
      obtain ⟨d, ds, hds, hd⟩ := ih (n / 10) (by omega) (by omega)
      refine ⟨d, ds ++ [n % 10], ?_, hd⟩
      rw [hds]
      rfl

theorem natDigitsAux_lt_ten (fuel n : Nat) (hle : n ≤ fuel) :
    ∀ d ∈ natDigitsAux fuel n, d < 10 := by
  induction fuel generalizing n with
  | zero =>
    intro d hd
    have hz : n = 0 := by omega
    subst hz
    simp [natDigitsAux] at hd
    omega
  | succ fuel ih =>
    intro d hd
    rw [natDigitsAux] at hd
    by_cases h10 : n < 10
    · rw [if_pos h10] at hd
      simp at hd
      omega
    · rw [if_neg h10] at hd
      rcases List.mem_append.mp hd with h | h
      · exact ih (n / 10) (by omega) d h
      · simp at h
        omega

theorem charDigit_digitChar : ∀ d, d < 10 → charDigit (digitChar d) = d := by
  decide

theorem digitChar_ne_zeroChar :
    ∀ d, d < 10 → 0 < d → (digitChar d == digitChar 0) = false := by
  decide

theorem dropWhile_replicate_append (p : Char → Bool) (k : Nat)
    (t : List Char) (a : Char) (ha : p a = true) :
    (List.replicate k a ++ t).dropWhile p = t.dropWhile p := by
  induction k with
  | zero => rfl
  | succ k ih => simp [List.replicate_succ, List.dropWhile_cons, ha, ih]

theorem unpad5_padZeros5 (n : Nat) : unpad5 (padZeros5 n) = n := by
  by_cases hn : n = 0
  · subst hn
    decide
  · unfold unpad5 padZeros5
    show digitsVal (((List.replicate (5 - (natDigits n).length) (digitChar 0)
        ++ (natDigits n).map digitChar).dropWhile
          (fun c => c == digitChar 0)).map charDigit) = n
    rw [dropWhile_replicate_append _ _ _ _ (by decide)]
    obtain ⟨d, ds, hds, hd⟩ :=
      natDigitsAux_head_pos n n (Nat.le_refl n) (by omega)
    have hlt : ∀ d ∈ natDigits n, d < 10 :=
      natDigitsAux_lt_ten n n (Nat.le_refl n)
    have hdlt : d < 10 := hlt d (by
      rw [show natDigits n = d :: ds from hds]
      exact List.mem_cons_self d ds)
    rw [show natDigits n = d :: ds from hds, List.map_cons,
      List.dropWhile_cons,
      if_neg (by rw [digitChar_ne_zeroChar d hdlt hd]; simp),
      ← List.map_cons, ← show natDigits n = d :: ds from hds, List.map_map]
    simp only [Function.comp_def]
    rw [List.map_congr_left (fun a ha => charDigit_digitChar a (hlt a ha)),
      List.map_id']
    exact digitsVal_natDigitsAux n n (Nat.le_refl n)

theorem padZeros5_injective : Function.Injective padZeros5 := by
  intro m n h
  have h2 := congrArg unpad5 h
  rwa [unpad5_padZeros5, unpad5_padZeros5] at h2

/-! ### `CountSubjects` construction (`tasks.py`) -/

/-- The stimuli table built by `CountSubjects.__init__` in `tasks.py`,
reduced to its two columns. -/
structure CountSubjectsStimuli where
  stimulus_id : List String
  filepath : List String
deriving DecidableEq

/-- `CountSubjects.__init__` from `tasks.py`: given the sorted video files
of the data folder, the stimuli table is built with
`stimulus_id = [f"{i:05d}" for i in range(len(files))]` and
`filepath = files`.  Construction is total: identifiers are derived
positionally from the file count, no duplicate check is performed and no
failure path exists. -/
def CountSubjects_init (files : List String) : CountSubjectsStimuli :=
  { stimulus_id := (List.range files.length).map padZeros5
    filepath := files }

/-- C9 counterexample: constructing the task is a total function with no
failure signal — fed a duplicated input (the same video file twice), it
succeeds and produces the table with positionally generated, distinct
identifiers `["00000", "00001"]`; no `DuplicateIdentifier` outcome exists
anywhere in the construction. -/
theorem claim9_counterexample :
    CountSubjects_init ["video.mp4", "video.mp4"]
      = { stimulus_id := ["00000", "00001"],
          filepath := ["video.mp4", "video.mp4"] }
    ∧ (CountSubjects_init ["video.mp4", "video.mp4"]).stimulus_id.Nodup := by
  constructor
  · decide
  · decide

/-- C9 (amended): construction never receives identifiers and never
fails; the identifiers it generates are the zero-padded positions
`0 .. n-1`, which are always pairwise distinct, so the duplicate-identifier
situation the spec guards against cannot arise. -/
theorem claim9_construction_nodup (files : List String) :
    (CountSubjects_init files).stimulus_id.Nodup :=
  List.Nodup.map padZeros5_injective (List.nodup_range files.length)

/-! ### The `next_unfilled` route (`app.py`) -/

/-- Python's `int(...)` on the textual forms a stored `stimulus_id` can
take, restricted to nonnegative decimal numerals (the identifier domain of
this application): `some` of the value for a nonempty all-digit string,
`none` (an exception in the source) otherwise. -/
def parseNat? (s : String) : Option Nat :=
  if !s.data.isEmpty && s.data.all Char.isDigit then
    some (s.data.foldl (fun n c => n * 10 + (c.toNat - 48)) 0)
  else none

/-- The per-file loop of the `next_unfilled` route:
`for sid in df['stimulus_id']: filled_ids.add(f"{int(sid):05d}")`.
Each value is normalised through an integer parse and zero-padding before
insertion; a value on which `int` raises aborts the loop for this file
(the surrounding `except` catches it per file, keeping the identifiers
already added). -/
def read_file_sids : List String → List String
  | [] => []
  | s :: rest =>
    match parseNat? s with
    | some n => padZeros5 n :: read_file_sids rest
    | none => []

/-- The `filled_ids` collection of the `next_unfilled` route: for
`scope == 'you'` only the requesting annotator's record file for the task
is read (empty when absent); for any other scope value the files of every
annotator under the results root are unioned.  The result store is
modelled as an association list from annotator name to the
`stimulus_id` column of that annotator's record file for the task. -/
def collect_filled (results : List (String × List String))
    (annot scope : String) : List String :=
  if scope = "you" then
    match results.lookup annot with
    | some sids => read_file_sids sids
    | none => []
  else
    (results.map (fun p => read_file_sids p.2)).flatten

/-- Python's `str.zfill(5)` (for a string without sign character): pad on
the left with `'0'` to at least five characters. -/
def zfill5 (s : String) : String :=
  ⟨List.replicate (5 - s.length) (digitChar 0) ++ s.data⟩

/-- Outcome of the `next_unfilled` route: the error JSON for a missing
annotator name, `found` with a stimulus identifier, or the not-found
JSON. -/
inductive NextUnfilledResponse where
  | errorNoAnnotator
  | found (stim_id : String)
  | notFound
deriving DecidableEq

/-- The `next_unfilled` route of `app.py`: reject a missing annotator
name, collect the filled identifiers for the requested scope, normalise
`start_id` (`f"{int(start_id):05d}"`, falling back to `zfill(5)` when the
parse fails), and scan the sequence from the start index with
wraparound. -/
def next_unfilled_route (ids bad : List String)
    (results : List (String × List String))
    (annot scope start_id : String) : NextUnfilledResponse :=
  if annot = "" then .errorNoAnnotator
  else
    let filled := collect_filled results annot scope
    let start_id_formatted :=
      match parseNat? start_id with
      | some n => padZeros5 n
      | none => zfill5 start_id
    match next_unfilled_scan ids filled bad start_id_formatted with
    | some x => .found x
    | none => .notFound

theorem read_file_sids_canonical (sids : List String) :
    ∀ x ∈ read_file_sids sids, ∃ n : Nat, x = padZeros5 n := by
  induction sids with
  | nil => intro x hx; exact absurd hx (List.not_mem_nil x)
  | cons s rest ih =>
    intro x hx
    rw [read_file_sids] at hx
    cases hp : parseNat? s with
    | some n =>
      rw [hp] at hx
      rcases List.mem_cons.mp hx with h | h
      · exact ⟨n, h⟩
      · exact ih x h
    | none =>
      rw [hp] at hx
      exact absurd hx (List.not_mem_nil x)

/-- C8: every identifier inserted into the completed set during completion
scanning is in canonical zero-padded form, re-derived from an integer
parse of the stored value — so a stored value in any textual form
contributes exactly the canonical `f"{int(sid):05d}"` identifier, the form
in which the task's sequence identifiers are generated. -/
theorem claim8_normalisation (results : List (String × List String))
    (annot scope : String) :
    (∀ x ∈ collect_filled results annot scope, ∃ n : Nat, x = padZeros5 n)
    ∧ (∀ (s : String) (n : Nat) (rest : List String), parseNat? s = some n →
        read_file_sids (s :: rest) = padZeros5 n :: read_file_sids rest) := by
  constructor
  · intro x hx
    rw [collect_filled] at hx
    by_cases hs : scope = "you"
    · rw [if_pos hs] at hx
      cases hl : results.lookup annot with
      | some sids =>
        rw [hl] at hx
        exact read_file_sids_canonical sids x hx
      | none =>
        rw [hl] at hx
        exact absurd hx (List.not_mem_nil x)
    · rw [if_neg hs] at hx
      rcases List.mem_flatten.mp hx with ⟨l, hl, hxl⟩
      rcases List.mem_map.mp hl with ⟨p, -, hpl⟩
      exact read_file_sids_canonical p.2 x (hpl ▸ hxl)
  · intro s n rest hp
    rw [read_file_sids, hp]

/-- Witness for C8: the stored forms `"7"` and `"00007"` both normalise
to the canonical `"00007"`. -/
theorem claim8_witness :
    read_file_sids ["7"] = ["00007"]
    ∧ read_file_sids ["00007"] = ["00007"] := by
  constructor
  · have h := (claim8_normalisation [] "a" "you").2 "7" 7 [] (by decide)
    rw [h]
    decide
  · have h := (claim8_normalisation [] "a" "any").2 "00007" 7 [] (by decide)
    rw [h]
    decide

/-- C10: any scope value other than the exact string `"you"` is treated
as scope `"any"`: the completed set is the union over every annotator's
record file for the task, independent of the requesting annotator, and
the route answers exactly as it does for the literal scope `"any"`. -/
theorem claim10_scope_fallback (ids bad : List String)
    (results : List (String × List String))
    (annot₁ annot₂ scope start_id : String)
    (h1 : annot₁ ≠ "") (h2 : annot₂ ≠ "") (hscope : scope ≠ "you") :
    collect_filled results annot₁ scope
      = (results.map (fun p => read_file_sids p.2)).flatten
    ∧ next_unfilled_route ids bad results annot₁ scope start_id
      = next_unfilled_route ids bad results annot₂ scope start_id
    ∧ next_unfilled_route ids bad results annot₁ scope start_id
      = next_unfilled_route ids bad results annot₁ "any" start_id := by
  have hc : ∀ a, collect_filled results a scope
      = (results.map (fun p => read_file_sids p.2)).flatten := fun a => by
    rw [collect_filled, if_neg hscope]
  have hany : ∀ a, collect_filled results a "any"
      = (results.map (fun p => read_file_sids p.2)).flatten := fun a => by
    rw [collect_filled, if_neg (by decide)]
  refine ⟨hc annot₁, ?_, ?_⟩
  · simp only [next_unfilled_route, if_neg h1, if_neg h2, hc]
  · simp only [next_unfilled_route, if_neg h1, hc, hany]

/-- Witness for C10: with two annotators on record, the scopes `"ALL"`
and `"any"` coincide for annotator `"alice"`, and `"ALL"` gives the same
answer for `"alice"` and `"bob"`. -/
theorem claim10_witness :
    collect_filled [("alice", ["0"]), ("bob", ["1"])] "alice" "ALL"
      = ["00000", "00001"]
    ∧ next_unfilled_route ["00000", "00001"] []
        [("alice", ["0"]), ("bob", ["1"])] "alice" "ALL" "00000"
      = next_unfilled_route ["00000", "00001"] []
        [("alice", ["0"]), ("bob", ["1"])] "bob" "ALL" "00000" := by
  have h := claim10_scope_fallback ["00000", "00001"] []
    [("alice", ["0"]), ("bob", ["1"])] "alice" "bob" "ALL" "00000"
    (by decide) (by decide) (by decide)
  refine ⟨?_, h.2.1⟩
  rw [h.1]
  decide

end VoiceOver
